import Mathlib

/-!
Verification of the tracklib recursive Bayesian estimation core.

This file gives a shallow embedding of the filter classes of
`tracklib/filter` (`EKFilterAN` of `ekf.py`, `IMMFilter` of `dmmf.py`,
the step counter of `base.py`) and of the model switching functions of
`tracklib/model/model.py`, and proves or refutes the stated properties
of the specification against that embedding.

Conventions of the embedding:
* numpy float arrays become vectors `Fin n → α` and matrices
  `Matrix (Fin n) (Fin m) α` over a linear ordered field `α`
  (instantiated at `ℝ` in the theorems); floating point rounding is
  outside the embedding, arithmetic is exact;
* a Python method mutating `self` becomes a function returning the
  updated record; a method that raises for an uninitialized filter is
  additionally wrapped into an `Except Unit` returning function;
* `scipy.linalg.inv` becomes `minv` (inverse through the adjugate);
  square roots, exponentials and logarithms of `likelihood` and
  `distance` are passed as explicit function arguments so that all
  definitions stay computable; the theorems instantiate them at
  `Real.sqrt`, `Real.exp` and `Real.log`.
-/

namespace Tracklib

/-- Vectors of length `n` over `α`, the embedding of 1-D numpy arrays. -/
abbrev Vec (n : ℕ) (α : Type) := Fin n → α

/-- Embedding of `(A + A.T) / 2`, the symmetrization used after every
covariance assignment in `ekf.py` and `dmmf.py`. -/
def symmetrize {n : ℕ} {α : Type} [Field α] (A : Matrix (Fin n) (Fin n) α) :
    Matrix (Fin n) (Fin n) α :=
  ((1 : α) / 2) • (A + A.transpose)

/-- Embedding of `scipy.linalg.inv`: the inverse of a square matrix through
the adjugate, `det⁻¹ • adjugate` (the junk value on singular input is never
relied upon by any claim). -/
def minv {n : ℕ} {α : Type} [Field α] (A : Matrix (Fin n) (Fin n) α) :
    Matrix (Fin n) (Fin n) α :=
  (A.det)⁻¹ • A.adjugate

/-- Embedding of `np.finfo(float).tiny`, the smallest positive normal double
`2 ^ (-1022)`, as an exact value of `α`. -/
def tinyFloat (α : Type) [Field α] : α := ((2 : α) ^ (1022 : ℕ))⁻¹

/--
Embedding of the additive noise extended Kalman filter `EKFilterAN` of
`tracklib/filter/ekf.py` together with the bookkeeping fields its base
class `KFBase` of `tracklib/filter/base.py` initializes (`_len`, `_init`).

`U` is the type of the control input `u`.  The stacked Hessians
(`fhes`/`hhes`, numpy arrays of shape `(xdim, xdim, ·)`) become families of
matrices indexed by the output component.  The constructor argument
`order ∈ {1, 2}` (any other value is rejected) is embedded as the flag
`order2` meaning `order == 2`; `it` is the iteration count.
-/
structure EKFilterAN (α U : Type) (xdim zdim wdim vdim : ℕ) where
  f : Vec xdim α → U → Vec xdim α
  L : Matrix (Fin xdim) (Fin wdim) α
  h : Vec xdim α → Vec zdim α
  M : Matrix (Fin zdim) (Fin vdim) α
  Q : Matrix (Fin wdim) (Fin wdim) α
  R : Matrix (Fin vdim) (Fin vdim) α
  fjac : Vec xdim α → U → Matrix (Fin xdim) (Fin xdim) α
  hjac : Vec xdim α → Matrix (Fin zdim) (Fin xdim) α
  fhes : Vec xdim α → U → Fin xdim → Matrix (Fin xdim) (Fin xdim) α
  hhes : Vec xdim α → Fin zdim → Matrix (Fin xdim) (Fin xdim) α
  order2 : Bool
  it : ℕ
  state : Vec xdim α
  cov : Matrix (Fin xdim) (Fin xdim) α
  len : ℕ
  inited : Bool

namespace EKFilterAN

variable {α U : Type} [LinearOrderedField α] {xdim zdim wdim vdim : ℕ}

/-- Embedding of `EKFilterAN.init`: copies state and covariance and sets
the initialized flag (the step counter `_len` is untouched, as in the
source). -/
def init (k : EKFilterAN α U xdim zdim wdim vdim) (state : Vec xdim α)
    (cov : Matrix (Fin xdim) (Fin xdim) α) : EKFilterAN α U xdim zdim wdim vdim :=
  { k with state := state, cov := cov, inited := true }

/-- Embedding of `EKFilterAN.reset`: overwrites state and covariance.  The
source performs no initialization check and touches neither `_init` nor
`_len`. -/
def reset (k : EKFilterAN α U xdim zdim wdim vdim) (state : Vec xdim α)
    (cov : Matrix (Fin xdim) (Fin xdim) α) : EKFilterAN α U xdim zdim wdim vdim :=
  { k with state := state, cov := cov }

/-- Embedding of the body of `EKFilterAN.predict` (after the init check).
The per-call overrides `L`/`Q` are written into the stored matrices
(`self._L[:] = kwargs['L']`, `self._Q[:] = kwargs['Q']`) before the
numeric step, exactly as in the source. -/
def predictCore (k : EKFilterAN α U xdim zdim wdim vdim) (u : U)
    (Lkw : Option (Matrix (Fin xdim) (Fin wdim) α))
    (Qkw : Option (Matrix (Fin wdim) (Fin wdim) α)) :
    EKFilterAN α U xdim zdim wdim vdim :=
  let Lm := Lkw.getD k.L
  let Qm := Qkw.getD k.Q
  let F := k.fjac k.state u
  let Qtilde := Lm * Qm * Lm.transpose
  let state1 := k.f k.state u
  let cov1 := symmetrize (F * k.cov * F.transpose + Qtilde)
  let state2 := if k.order2 then
      state1 + fun i => (Matrix.trace (k.fhes k.state u i * k.cov)) / 2
    else state1
  { k with L := Lm, Q := Qm, state := state2, cov := cov1 }

/-- Embedding of `EKFilterAN.predict` including the `NotInitialized`
check (`RuntimeError` in the source). -/
def predict (k : EKFilterAN α U xdim zdim wdim vdim) (u : U)
    (Lkw : Option (Matrix (Fin xdim) (Fin wdim) α))
    (Qkw : Option (Matrix (Fin wdim) (Fin wdim) α)) :
    Except Unit (EKFilterAN α U xdim zdim wdim vdim) :=
  if k.inited then Except.ok (predictCore k u Lkw Qkw) else Except.error ()

/-- One pass of the iterated correction loop of `EKFilterAN.correct`:
relinearize at the current estimate, but form `S` and the gain from the
original prior covariance `priorCov`. -/
def correctIterStep (k : EKFilterAN α U xdim zdim wdim vdim)
    (Mm : Matrix (Fin zdim) (Fin vdim) α) (Rm : Matrix (Fin vdim) (Fin vdim) α)
    (priorState : Vec xdim α) (priorCov : Matrix (Fin xdim) (Fin xdim) α)
    (z : Vec zdim α) (cur : Vec xdim α × Matrix (Fin xdim) (Fin xdim) α) :
    Vec xdim α × Matrix (Fin xdim) (Fin xdim) α :=
  let H := k.hjac cur.1
  let zpred0 := k.h cur.1 + H.mulVec (priorState - cur.1)
  let zpred := if k.order2 then
      zpred0 + fun i => (Matrix.trace (k.hhes cur.1 i * cur.2)) / 2
    else zpred0
  let innov := z - zpred
  let S := symmetrize (H * priorCov * H.transpose + Mm * Rm * Mm.transpose)
  let K := priorCov * H.transpose * minv S
  (priorState + K.mulVec innov, symmetrize (priorCov - K * S * K.transpose))

/-- Embedding of the body of `EKFilterAN.correct` (after the init check):
the base linear-form update followed by `it` iterations of
`correctIterStep`.  The per-call overrides `M`/`R` are persisted into the
stored matrices before the numeric step, as in the source. -/
def correctCore (k : EKFilterAN α U xdim zdim wdim vdim) (z : Vec zdim α)
    (Mkw : Option (Matrix (Fin zdim) (Fin vdim) α))
    (Rkw : Option (Matrix (Fin vdim) (Fin vdim) α)) :
    EKFilterAN α U xdim zdim wdim vdim :=
  let Mm := Mkw.getD k.M
  let Rm := Rkw.getD k.R
  let priorState := k.state
  let priorCov := k.cov
  let H := k.hjac priorState
  let zpred0 := k.h priorState
  let zpred := if k.order2 then
      zpred0 + fun i => (Matrix.trace (k.hhes priorState i * priorCov)) / 2
    else zpred0
  let innov := z - zpred
  let S := symmetrize (H * priorCov * H.transpose + Mm * Rm * Mm.transpose)
  let K := priorCov * H.transpose * minv S
  let base : Vec xdim α × Matrix (Fin xdim) (Fin xdim) α :=
    (priorState + K.mulVec innov, symmetrize (priorCov - K * S * K.transpose))
  let final := (correctIterStep k Mm Rm priorState priorCov z)^[k.it] base
  { k with M := Mm, R := Rm, state := final.1, cov := final.2 }

/-- Embedding of `EKFilterAN.correct` including the `NotInitialized`
check. -/
def correct (k : EKFilterAN α U xdim zdim wdim vdim) (z : Vec zdim α)
    (Mkw : Option (Matrix (Fin zdim) (Fin vdim) α))
    (Rkw : Option (Matrix (Fin vdim) (Fin vdim) α)) :
    Except Unit (EKFilterAN α U xdim zdim wdim vdim) :=
  if k.inited then Except.ok (correctCore k z Mkw Rkw) else Except.error ()

/-- The combined JPDA update of `EKFilterAN.correct_JPDA` computed from a
fixed measurement Jacobian `H` and predicted measurement `zpred`: the loop
over candidates accumulates `state_item`, `cov_item1` and `cov_item2`
exactly as the `for i in range(z_len)` loop of the source (a left fold
starting from zero), then forms the combined state and covariance;
`probSum` is `np.sum(probs)` over the full probability list. -/
def jpdaCombine (k : EKFilterAN α U xdim zdim wdim vdim)
    (H : Matrix (Fin zdim) (Fin xdim) α) (zpred : Vec zdim α)
    (priorState : Vec xdim α) (priorCov : Matrix (Fin xdim) (Fin xdim) α)
    (cands : List (Vec zdim α × α)) (probSum : α) :
    Vec xdim α × Matrix (Fin xdim) (Fin xdim) α :=
  let S := symmetrize (H * priorCov * H.transpose + k.M * k.R * k.M.transpose)
  let K := priorCov * H.transpose * minv S
  let items := cands.foldl
    (fun acc zp =>
      (acc.1 + zp.2 • K.mulVec (zp.1 - zpred),
       acc.2.1 + zp.2 • (priorCov - K * S * K.transpose),
       acc.2.2 + zp.2 •
         Matrix.vecMulVec (K.mulVec (zp.1 - zpred)) (K.mulVec (zp.1 - zpred))))
    (0, 0, 0)
  (priorState + items.1,
   symmetrize ((1 - probSum) • priorCov + items.2.1 +
     (items.2.2 - Matrix.vecMulVec items.1 items.1)))

/-- One pass of the iterated loop of `EKFilterAN.correct_JPDA`:
relinearize at the current estimate and redo the combined update, with `S`
and the gain still formed from the original prior covariance. -/
def jpdaIterStep (k : EKFilterAN α U xdim zdim wdim vdim)
    (priorState : Vec xdim α) (priorCov : Matrix (Fin xdim) (Fin xdim) α)
    (cands : List (Vec zdim α × α)) (probSum : α)
    (cur : Vec xdim α × Matrix (Fin xdim) (Fin xdim) α) :
    Vec xdim α × Matrix (Fin xdim) (Fin xdim) α :=
  let H := k.hjac cur.1
  let zpred0 := k.h cur.1 + H.mulVec (priorState - cur.1)
  let zpred := if k.order2 then
      zpred0 + fun i => (Matrix.trace (k.hhes cur.1 i * cur.2)) / 2
    else zpred0
  jpdaCombine k H zpred priorState priorCov cands probSum

/-- Embedding of the body of `EKFilterAN.correct_JPDA` (after the init
check), without per-call `M`/`R` list overrides: the candidate
measurements `zs` paired with their association probabilities `probs`
(the source indexes `probs[i]` for `i in range(len(zs))`, which is the
zip of the two lists when their lengths agree). -/
def correctJPDACore (k : EKFilterAN α U xdim zdim wdim vdim)
    (zs : List (Vec zdim α)) (probs : List α) :
    EKFilterAN α U xdim zdim wdim vdim :=
  let cands := zs.zip probs
  let priorState := k.state
  let priorCov := k.cov
  let H := k.hjac priorState
  let zpred0 := k.h priorState
  let zpred := if k.order2 then
      zpred0 + fun i => (Matrix.trace (k.hhes priorState i * priorCov)) / 2
    else zpred0
  let base := jpdaCombine k H zpred priorState priorCov cands probs.sum
  let final := (jpdaIterStep k priorState priorCov cands probs.sum)^[k.it] base
  { k with state := final.1, cov := final.2 }

/-- Embedding of `EKFilterAN.correct_JPDA` including the `NotInitialized`
check. -/
def correct_JPDA (k : EKFilterAN α U xdim zdim wdim vdim)
    (zs : List (Vec zdim α)) (probs : List α) :
    Except Unit (EKFilterAN α U xdim zdim wdim vdim) :=
  if k.inited then Except.ok (correctJPDACore k zs probs) else Except.error ()

/-- Embedding of the body of `EKFilterAN.distance` (after the init check).
The natural logarithm is passed as the function argument `log`; the
per-call `M`/`R` overrides are bound to local variables only, as in the
source.  The returned pair is the method result together with the filter
record after the call: the body performs no assignment to `self`, so the
record is returned unchanged. -/
def distanceRun (log : α → α) (k : EKFilterAN α U xdim zdim wdim vdim)
    (z : Vec zdim α)
    (Mkw : Option (Matrix (Fin zdim) (Fin vdim) α))
    (Rkw : Option (Matrix (Fin vdim) (Fin vdim) α)) :
    α × EKFilterAN α U xdim zdim wdim vdim :=
  let Mm := Mkw.getD k.M
  let Rm := Rkw.getD k.R
  let H := k.hjac k.state
  let zpred0 := k.h k.state
  let zpred := if k.order2 then
      zpred0 + fun i => (Matrix.trace (k.hhes k.state i * k.cov)) / 2
    else zpred0
  let innov := z - zpred
  let S := symmetrize (H * k.cov * H.transpose + Mm * Rm * Mm.transpose)
  (Matrix.dotProduct innov ((minv S).mulVec innov) + log S.det, k)

/-- Embedding of `EKFilterAN.distance` including the `NotInitialized`
check. -/
def distance (log : α → α) (k : EKFilterAN α U xdim zdim wdim vdim)
    (z : Vec zdim α)
    (Mkw : Option (Matrix (Fin zdim) (Fin vdim) α))
    (Rkw : Option (Matrix (Fin vdim) (Fin vdim) α)) :
    Except Unit (α × EKFilterAN α U xdim zdim wdim vdim) :=
  if k.inited then Except.ok (distanceRun log k z Mkw Rkw) else Except.error ()

/-- Embedding of the body of `EKFilterAN.likelihood` (after the init
check): the Gaussian density of the innovation, floored at
`np.finfo(float).tiny` by `max(pdf, tiny)`.  `sqrt`, `exp` and `pi` stand
for the real functions and constant; the per-call `M`/`R` overrides are
local.  As for `distanceRun` the body performs no assignment to `self`,
so the filter record is returned unchanged. -/
def likelihoodRun (sqrt exp : α → α) (pi : α)
    (k : EKFilterAN α U xdim zdim wdim vdim) (z : Vec zdim α)
    (Mkw : Option (Matrix (Fin zdim) (Fin vdim) α))
    (Rkw : Option (Matrix (Fin vdim) (Fin vdim) α)) :
    α × EKFilterAN α U xdim zdim wdim vdim :=
  let Mm := Mkw.getD k.M
  let Rm := Rkw.getD k.R
  let H := k.hjac k.state
  let zpred0 := k.h k.state
  let zpred := if k.order2 then
      zpred0 + fun i => (Matrix.trace (k.hhes k.state i * k.cov)) / 2
    else zpred0
  let innov := z - zpred
  let S := symmetrize (H * k.cov * H.transpose + Mm * Rm * Mm.transpose)
  let pdf := (1 / sqrt (((2 * pi) • S).det)) *
    exp (-(Matrix.dotProduct innov ((minv S).mulVec innov)) / 2)
  (max pdf (tinyFloat α), k)

/-- Embedding of `EKFilterAN.likelihood` including the `NotInitialized`
check. -/
def likelihood (sqrt exp : α → α) (pi : α)
    (k : EKFilterAN α U xdim zdim wdim vdim) (z : Vec zdim α)
    (Mkw : Option (Matrix (Fin zdim) (Fin vdim) α))
    (Rkw : Option (Matrix (Fin vdim) (Fin vdim) α)) :
    Except Unit (α × EKFilterAN α U xdim zdim wdim vdim) :=
  if k.inited then Except.ok (likelihoodRun sqrt exp pi k z Mkw Rkw)
  else Except.error ()

end EKFilterAN

/--
Operations a registered model of `IMMFilter` (of `tracklib/filter/dmmf.py`)
must expose, over a model record type `σ`: current state and covariance,
`predict`, `correct`, `likelihood` and `reset`.  The combiner calls them
duck-typed in the source; `likeOp` is the value returned by
`model.likelihood(z)`.
-/
structure ModelOps (α U : Type) (xdim zdim : ℕ) (σ : Type) where
  st : σ → Vec xdim α
  cv : σ → Matrix (Fin xdim) (Fin xdim) α
  predictOp : U → σ → σ
  correctOp : Vec zdim α → σ → σ
  likeOp : Vec zdim α → σ → α
  resetOp : Vec xdim α → Matrix (Fin xdim) (Fin xdim) α → σ → σ
  initOp : Vec xdim α → Matrix (Fin xdim) (Fin xdim) α → σ → σ

/--
Embedding of `IMMFilter` of `tracklib/filter/dmmf.py` with `n` registered
models all of the same model type, so that the state switching function
`model_switch(x, t, t)` between identical types is the identity
(`state_switch`/`cov_switch` return a copy of their input for equal
tags).  `probs` is `self._probs`, `transMat` is `self._trans_mat`.
-/
structure IMMFilter (α : Type) (xdim : ℕ) (n : ℕ) (σ : Type) where
  models : Fin n → σ
  probs : Fin n → α
  transMat : Matrix (Fin n) (Fin n) α
  state : Vec xdim α
  cov : Matrix (Fin xdim) (Fin xdim) α
  inited : Bool

namespace IMMFilter

variable {α U : Type} [LinearOrderedField α] {xdim zdim n : ℕ} {σ : Type}

/-- Embedding of `IMMFilter.add_models` defaults: the default model
probability vector `np.full(n, 1 / n)`. -/
def defaultProbs (α : Type) [LinearOrderedField α] (n : ℕ) : Fin n → α :=
  fun _ => 1 / (n : α)

/-- Embedding of `IMMFilter.add_models` defaults: the default transition
matrix with `0.999` on the diagonal and `(1 - 0.999) / 2` everywhere
else. -/
def defaultTransMat (α : Type) [LinearOrderedField α] (n : ℕ) :
    Matrix (Fin n) (Fin n) α :=
  fun i j => if i = j then 999 / 1000 else (1 - 999 / 1000) / 2

/-- Embedding of `IMMFilter.__update`: the combiner state becomes the
probability weighted mean of the model states and the combiner covariance
the probability weighted spread `Σ μ_i (P_i + err_i err_iᵗ)`,
symmetrized.  With identical model types the switching function drops
out. -/
def updateFused (ops : ModelOps α U xdim zdim σ) (s : IMMFilter α xdim n σ) :
    IMMFilter α xdim n σ :=
  let xtmp : Vec xdim α := ∑ i, s.probs i • ops.st (s.models i)
  let Ptmp := ∑ i, s.probs i •
    (ops.cv (s.models i) +
      Matrix.vecMulVec (ops.st (s.models i) - xtmp) (ops.st (s.models i) - xtmp))
  { s with state := xtmp, cov := symmetrize Ptmp }

/-- Embedding of `IMMFilter.init` (after the `models must be added` check):
initializes every model with the switched state and covariance (identity
switching here) and copies them into the combiner. -/
def init (ops : ModelOps α U xdim zdim σ) (s : IMMFilter α xdim n σ)
    (state : Vec xdim α) (cov : Matrix (Fin xdim) (Fin xdim) α) :
    IMMFilter α xdim n σ :=
  { s with models := fun i => ops.initOp state cov (s.models i),
           state := state, cov := cov, inited := true }

/-- The prior model probabilities of `IMMFilter.predict`: the row sums of
the columnwise product `mixing_probs = trans_mat * probs`
(`self._probs = np.sum(mixing_probs, axis=1)`). -/
def priorProbs (s : IMMFilter α xdim n σ) : Fin n → α :=
  fun i => ∑ j, s.transMat i j * s.probs j

/-- The normalized mixing probabilities of `IMMFilter.predict`
(`mixing_probs /= self._probs.reshape(-1, 1)`). -/
def mixingProb (s : IMMFilter α xdim n σ) : Matrix (Fin n) (Fin n) α :=
  fun i j => s.transMat i j * s.probs j / priorProbs s i

/-- The mixed state of destination model `i` in `IMMFilter.predict`. -/
def mixedState (ops : ModelOps α U xdim zdim σ) (s : IMMFilter α xdim n σ)
    (i : Fin n) : Vec xdim α :=
  ∑ j, mixingProb s i j • ops.st (s.models j)

/-- The mixed covariance of destination model `i` in `IMMFilter.predict`,
symmetrized. -/
def mixedCov (ops : ModelOps α U xdim zdim σ) (s : IMMFilter α xdim n σ)
    (i : Fin n) : Matrix (Fin xdim) (Fin xdim) α :=
  symmetrize (∑ j, mixingProb s i j •
    (ops.cv (s.models j) +
      Matrix.vecMulVec (ops.st (s.models j) - mixedState ops s i)
        (ops.st (s.models j) - mixedState ops s i)))

/-- Embedding of the body of `IMMFilter.predict` (after the init check):
compute `mixing_probs = trans_mat * probs` columnwise, set the prior model
probabilities to its row sums, normalize per destination model, mix every
destination model state and covariance, `reset` each model to its mixed
pair, run each model prediction, then fuse with `__update`. -/
def predictCore (ops : ModelOps α U xdim zdim σ) (s : IMMFilter α xdim n σ)
    (u : U) : IMMFilter α xdim n σ :=
  updateFused ops
    { s with
      models := fun i =>
        ops.predictOp u (ops.resetOp (mixedState ops s i) (mixedCov ops s i) (s.models i))
      probs := priorProbs s }

/-- Embedding of `IMMFilter.predict` including the `NotInitialized`
check. -/
def predict (ops : ModelOps α U xdim zdim σ) (s : IMMFilter α xdim n σ)
    (u : U) : Except Unit (IMMFilter α xdim n σ) :=
  if s.inited then Except.ok (predictCore ops s u) else Except.error ()

/-- The posterior model probabilities of `IMMFilter.correct`: each prior
probability multiplied by its model likelihood and renormalized
(`self._probs *= pdf; self._probs /= np.sum(self._probs)`). -/
def postProbs (ops : ModelOps α U xdim zdim σ) (s : IMMFilter α xdim n σ)
    (z : Vec zdim α) : Fin n → α :=
  fun i => s.probs i * ops.likeOp z (s.models i) /
    ∑ j, s.probs j * ops.likeOp z (s.models j)

/-- Embedding of the body of `IMMFilter.correct` (after the init check):
each model reports its likelihood and corrects itself, the model
probabilities are reweighted by the likelihoods and renormalized, then
the posterior is fused with `__update`. -/
def correctCore (ops : ModelOps α U xdim zdim σ) (s : IMMFilter α xdim n σ)
    (z : Vec zdim α) : IMMFilter α xdim n σ :=
  updateFused ops
    { s with
      models := fun i => ops.correctOp z (s.models i)
      probs := postProbs ops s z }

/-- Embedding of `IMMFilter.correct` including the `NotInitialized`
check. -/
def correct (ops : ModelOps α U xdim zdim σ) (s : IMMFilter α xdim n σ)
    (z : Vec zdim α) : Except Unit (IMMFilter α xdim n σ) :=
  if s.inited then Except.ok (correctCore ops s z) else Except.error ()

/-- Embedding of the body of `IMMFilter.likelihood`: the probability
weighted sum of the model likelihoods. -/
def likelihoodCore (ops : ModelOps α U xdim zdim σ) (s : IMMFilter α xdim n σ)
    (z : Vec zdim α) : α :=
  ∑ i, s.probs i * ops.likeOp z (s.models i)

end IMMFilter

/-- The `ModelOps` record of an embedded `EKFilterAN` used as a registered
model of the combiner, with square noise coupling (`wdim = vdim = xdim`
resp. `zdim` is not required; any shapes work).  `sqrt`, `exp` and `pi`
parametrize the likelihood as in `EKFilterAN.likelihoodRun`. -/
def ekfOps (α U : Type) [LinearOrderedField α] (xdim zdim wdim vdim : ℕ)
    (sqrt exp : α → α) (pi : α) :
    ModelOps α U xdim zdim (EKFilterAN α U xdim zdim wdim vdim) where
  st := fun k => k.state
  cv := fun k => k.cov
  predictOp := fun u k => k.predictCore u none none
  correctOp := fun z k => k.correctCore z none none
  likeOp := fun z k => (EKFilterAN.likelihoodRun sqrt exp pi k z none none).1
  resetOp := fun x P k => k.reset x P
  initOp := fun x P k => k.init x P

/--
Index map of the selection matrices of `state_switch` in
`tracklib/model/model.py` for the constant velocity and constant
acceleration pair: `np.delete(np.eye(3 * axis), range(2, 3 * axis, 3),
axis=1)` keeps the columns of the identity whose index is not `2 mod 3`;
its `j`-th kept column is the basis vector at `3 * (j / 2) + j % 2`.
-/
def caIndex (a : ℕ) (j : Fin (2 * a)) : Fin (3 * a) :=
  ⟨3 * (j.val / 2) + j.val % 2, by omega⟩

/-- The selection matrix of the `cv → ca` branch of `state_switch`:
`np.delete(np.eye(ca_dim), range(2, ca_dim, 3), axis=1)`, of shape
`(3 * axis, 2 * axis)`, which pads the acceleration components with
zeros. -/
def cvToCaMat (α : Type) [Field α] (a : ℕ) :
    Matrix (Fin (3 * a)) (Fin (2 * a)) α :=
  fun i j => if i = caIndex a j then 1 else 0

/-- The selection matrix of the `ca → cv` branch of `state_switch`:
`np.delete(np.eye(ca_dim), range(2, ca_dim, 3), axis=0)`, of shape
`(2 * axis, 3 * axis)`, which drops the acceleration components. -/
def caToCvMat (α : Type) [Field α] (a : ℕ) :
    Matrix (Fin (2 * a)) (Fin (3 * a)) α :=
  fun j i => if i = caIndex a j then 1 else 0

/-- Embedding of `state_switch(state, 'cv', 'ca')` for a state of length
`2 * axis` (so that `axis = dim // 2` of the source is exactly `a`):
multiplication by the column selection matrix. -/
def stateSwitchCvToCa (α : Type) [Field α] (a : ℕ) (state : Vec (2 * a) α) :
    Vec (3 * a) α :=
  (cvToCaMat α a).mulVec state

/-- Embedding of `state_switch(state, 'ca', 'cv')` for a state of length
`3 * axis` (so that `axis = dim // 3` of the source is exactly `a`):
multiplication by the row selection matrix. -/
def stateSwitchCaToCv (α : Type) [Field α] (a : ℕ) (state : Vec (3 * a) α) :
    Vec (2 * a) α :=
  (caToCvMat α a).mulVec state

/-- One call of the common filter lifecycle: a prediction with control
input `u` or a correction with measurement `z`, both without per-call
matrix overrides. -/
inductive FilterOp (α U : Type) (zdim : ℕ) where
  | predictStep (u : U)
  | correctStep (z : Vec zdim α)

/-- Run a sequence of lifecycle calls directly on an `EKFilterAN`. -/
def runEKF {α U : Type} [LinearOrderedField α] {xdim zdim wdim vdim : ℕ}
    (k : EKFilterAN α U xdim zdim wdim vdim) :
    List (FilterOp α U zdim) → EKFilterAN α U xdim zdim wdim vdim
  | [] => k
  | FilterOp.predictStep u :: rest => runEKF (k.predictCore u none none) rest
  | FilterOp.correctStep z :: rest => runEKF (k.correctCore z none none) rest

/-- Run a sequence of lifecycle calls on an `IMMFilter` combiner. -/
def runIMM {α U : Type} [LinearOrderedField α] {xdim zdim n : ℕ} {σ : Type}
    (ops : ModelOps α U xdim zdim σ) (s : IMMFilter α xdim n σ) :
    List (FilterOp α U zdim) → IMMFilter α xdim n σ
  | [] => s
  | FilterOp.predictStep u :: rest => runIMM ops (IMMFilter.predictCore ops s u) rest
  | FilterOp.correctStep z :: rest => runIMM ops (IMMFilter.correctCore ops s z) rest

/-! Concrete instances used to exhibit counterexamples and to witness the
hypotheses of the theorems below: a scalar additive noise EKF with
identity dynamics and measurement (`f(x, u) = x`, `h(x) = x`, all noise
matrices `[[1]]`), first order, no iterated correction. -/

/-- A scalar (`xdim = zdim = 1`) `EKFilterAN` as produced by the
constructor: identity dynamics and measurement maps with their exact
Jacobians, `order=1`, `it=0`, not yet initialized. -/
def trivEKF (α : Type) [LinearOrderedField α] : EKFilterAN α Unit 1 1 1 1 where
  f := fun x _ => x
  L := fun _ _ => 1
  h := fun x => x
  M := fun _ _ => 1
  Q := fun _ _ => 1
  R := fun _ _ => 1
  fjac := fun _ _ => fun _ _ => 1
  hjac := fun _ => fun _ _ => 1
  fhes := fun _ _ _ => fun _ _ => 0
  hhes := fun _ _ => fun _ _ => 0
  order2 := false
  it := 0
  state := fun _ => 0
  cov := fun _ _ => 1
  len := 0
  inited := false

/-- The scalar filter `trivEKF` after `init([1], [[1]])`. -/
def ekfA (α : Type) [LinearOrderedField α] : EKFilterAN α Unit 1 1 1 1 :=
  { trivEKF α with state := fun _ => 1, inited := true }

/-- The model operations of the scalar EKF; `sqrt`, `exp` and `pi` are
instantiated at the real functions and constant in the theorems. -/
def scalarOps (α : Type) [LinearOrderedField α] (sqrt exp : α → α) (pi : α) :
    ModelOps α Unit 1 1 (EKFilterAN α Unit 1 1 1 1) :=
  ekfOps α Unit 1 1 1 1 sqrt exp pi

/-- A single model IMM combiner over `trivEKF` before `init`, with the
default model probability vector and the default transition matrix
`[[0.999]]`. -/
def immDefault1 (α : Type) [LinearOrderedField α] :
    IMMFilter α 1 1 (EKFilterAN α Unit 1 1 1 1) where
  models := fun _ => trivEKF α
  probs := IMMFilter.defaultProbs α 1
  transMat := IMMFilter.defaultTransMat α 1
  state := fun _ => 0
  cov := fun _ _ => 0
  inited := false

/-- An initialized two model IMM combiner whose transition matrix
`[[1, 0], [1, 0]]` is row stochastic (each row sums to one, entries
non-negative) but not column stochastic, with model probabilities
`[1/4, 3/4]`. -/
def immRow2 (α : Type) [LinearOrderedField α] :
    IMMFilter α 1 2 (EKFilterAN α Unit 1 1 1 1) where
  models := fun _ => ekfA α
  probs := fun i => if i = 0 then 1 / 4 else 3 / 4
  transMat := fun _ j => if j = 0 then 1 else 0
  state := fun _ => 1
  cov := fun _ _ => 1
  inited := true

/-- An initialized two model IMM combiner with the doubly stochastic
transition matrix `[[1/2, 1/2], [1/2, 1/2]]` and uniform model
probabilities. -/
def immCol2 (α : Type) [LinearOrderedField α] :
    IMMFilter α 1 2 (EKFilterAN α Unit 1 1 1 1) where
  models := fun _ => ekfA α
  probs := fun _ => 1 / 2
  transMat := fun _ _ => 1 / 2
  state := fun _ => 1
  cov := fun _ _ => 1
  inited := true

/--
The `correct_JPDA` posterior as the specification states it, for
`it = 0`, `order = 1` and no per-call overrides: state
`prior + Σ_i p_i K_i (z_i − ẑ)` and covariance
`(1 − Σ p_i) P + Σ_i p_i (P − K_i S_i K_iᵗ) +
(Σ_i p_i incre_i incre_iᵗ − meanIncre meanIncreᵗ)`, symmetrized, where
`incre_i = K_i (z_i − ẑ)` and `meanIncre = Σ_i p_i incre_i` (with no
per-call overrides all `S_i` and `K_i` coincide).
-/
def jpdaSpecUpdate {α U : Type} [LinearOrderedField α] {xd zd wd vd : ℕ}
    (k : EKFilterAN α U xd zd wd vd) (zs : List (Vec zd α)) (probs : List α) :
    Vec xd α × Matrix (Fin xd) (Fin xd) α :=
  let H := k.hjac k.state
  let zpred := k.h k.state
  let S := symmetrize (H * k.cov * H.transpose + k.M * k.R * k.M.transpose)
  let K := k.cov * H.transpose * minv S
  let meanIncre := ((zs.zip probs).map fun zp => zp.2 • K.mulVec (zp.1 - zpred)).sum
  (k.state + meanIncre,
   symmetrize ((1 - probs.sum) • k.cov +
     ((zs.zip probs).map fun zp => zp.2 • (k.cov - K * S * K.transpose)).sum +
     (((zs.zip probs).map fun zp =>
         zp.2 • Matrix.vecMulVec (K.mulVec (zp.1 - zpred)) (K.mulVec (zp.1 - zpred))).sum -
       Matrix.vecMulVec meanIncre meanIncre)))

/-! Helper lemmas shared by the claim theorems. -/

theorem symmetrize_transpose {n : ℕ} {α : Type} [Field α]
    (A : Matrix (Fin n) (Fin n) α) :
    (symmetrize A).transpose = symmetrize A := by
  simp [symmetrize, Matrix.transpose_add, add_comm]

theorem symmetrize_eq_self {n : ℕ} {α : Type} [LinearOrderedField α]
    {A : Matrix (Fin n) (Fin n) α} (h : A.transpose = A) : symmetrize A = A := by
  unfold symmetrize
  rw [h, ← two_smul α A, smul_smul]
  norm_num

theorem tinyFloat_pos {α : Type} [LinearOrderedField α] : 0 < tinyFloat α := by
  unfold tinyFloat
  positivity

theorem vecMulVec_zero_left {n m : ℕ} {α : Type} [Field α] (v : Vec m α) :
    Matrix.vecMulVec (0 : Vec n α) v = 0 := by
  ext i j
  simp [Matrix.vecMulVec_apply]

theorem iterate_preserves {β : Type} (f : β → β) (p : β → Prop)
    (hf : ∀ b, p (f b)) : ∀ (m : ℕ) (b : β), p b → p (f^[m] b)
  | 0, _, hb => hb
  | m + 1, b, hb => by
    rw [Function.iterate_succ_apply]
    exact iterate_preserves f p hf m (f b) (hf b)

section EKFLemmas

variable {α U : Type} [LinearOrderedField α] {xdim zdim wdim vdim : ℕ}

theorem predictCore_cov_transpose (k : EKFilterAN α U xdim zdim wdim vdim)
    (u : U) (Lkw : Option (Matrix (Fin xdim) (Fin wdim) α))
    (Qkw : Option (Matrix (Fin wdim) (Fin wdim) α)) :
    ((k.predictCore u Lkw Qkw).cov).transpose = (k.predictCore u Lkw Qkw).cov :=
  symmetrize_transpose _

theorem correctCore_cov_transpose (k : EKFilterAN α U xdim zdim wdim vdim)
    (z : Vec zdim α) (Mkw : Option (Matrix (Fin zdim) (Fin vdim) α))
    (Rkw : Option (Matrix (Fin vdim) (Fin vdim) α)) :
    ((k.correctCore z Mkw Rkw).cov).transpose = (k.correctCore z Mkw Rkw).cov :=
  iterate_preserves _
    (fun pr : Vec xdim α × Matrix (Fin xdim) (Fin xdim) α =>
      pr.2.transpose = pr.2)
    (fun _ => symmetrize_transpose _) k.it _ (symmetrize_transpose _)

theorem correctJPDACore_cov_transpose (k : EKFilterAN α U xdim zdim wdim vdim)
    (zs : List (Vec zdim α)) (probs : List α) :
    ((k.correctJPDACore zs probs).cov).transpose = (k.correctJPDACore zs probs).cov :=
  iterate_preserves _
    (fun pr : Vec xdim α × Matrix (Fin xdim) (Fin xdim) α =>
      pr.2.transpose = pr.2)
    (fun _ => symmetrize_transpose _) k.it _ (symmetrize_transpose _)

theorem reset_self (k : EKFilterAN α U xdim zdim wdim vdim) :
    k.reset k.state k.cov = k := rfl

theorem ekfOps_likeOp_tiny_le (sqrt exp : α → α) (pi : α) (z : Vec zdim α)
    (m : EKFilterAN α U xdim zdim wdim vdim) :
    tinyFloat α ≤ (ekfOps α U xdim zdim wdim vdim sqrt exp pi).likeOp z m :=
  le_max_right _ _

theorem ekfOps_likeOp_pos (sqrt exp : α → α) (pi : α) (z : Vec zdim α)
    (m : EKFilterAN α U xdim zdim wdim vdim) :
    0 < (ekfOps α U xdim zdim wdim vdim sqrt exp pi).likeOp z m :=
  lt_of_lt_of_le tinyFloat_pos (ekfOps_likeOp_tiny_le sqrt exp pi z m)

end EKFLemmas

section IMMLemmas

variable {α U : Type} [LinearOrderedField α] {xdim zdim n : ℕ} {σ : Type}

theorem immPredictCore_probs (ops : ModelOps α U xdim zdim σ)
    (s : IMMFilter α xdim n σ) (u : U) :
    (IMMFilter.predictCore ops s u).probs = IMMFilter.priorProbs s := rfl

theorem immCorrectCore_probs (ops : ModelOps α U xdim zdim σ)
    (s : IMMFilter α xdim n σ) (z : Vec zdim α) :
    (IMMFilter.correctCore ops s z).probs = IMMFilter.postProbs ops s z := rfl

theorem updateFused_cov_transpose (ops : ModelOps α U xdim zdim σ)
    (s : IMMFilter α xdim n σ) :
    ((IMMFilter.updateFused ops s).cov).transpose = (IMMFilter.updateFused ops s).cov :=
  symmetrize_transpose _

theorem immPredictCore_cov_transpose (ops : ModelOps α U xdim zdim σ)
    (s : IMMFilter α xdim n σ) (u : U) :
    ((IMMFilter.predictCore ops s u).cov).transpose = (IMMFilter.predictCore ops s u).cov :=
  symmetrize_transpose _

theorem immCorrectCore_cov_transpose (ops : ModelOps α U xdim zdim σ)
    (s : IMMFilter α xdim n σ) (z : Vec zdim α) :
    ((IMMFilter.correctCore ops s z).cov).transpose = (IMMFilter.correctCore ops s z).cov :=
  symmetrize_transpose _

theorem updateFused_state (ops : ModelOps α U xdim zdim σ)
    (s : IMMFilter α xdim n σ) :
    (IMMFilter.updateFused ops s).state = ∑ i, s.probs i • ops.st (s.models i) := rfl

theorem updateFused_cov (ops : ModelOps α U xdim zdim σ)
    (s : IMMFilter α xdim n σ) :
    (IMMFilter.updateFused ops s).cov = symmetrize (∑ i, s.probs i •
      (ops.cv (s.models i) +
        Matrix.vecMulVec (ops.st (s.models i) - ∑ j, s.probs j • ops.st (s.models j))
          (ops.st (s.models i) - ∑ j, s.probs j • ops.st (s.models j)))) := rfl

/-! Lemmas about a combiner holding exactly one model with unit model
probability and the transition matrix `[[1]]`: every mixing and fusion
step degenerates to the identity. -/

theorem imm1_priorProbs (s : IMMFilter α xdim 1 σ)
    (hp : s.probs = fun _ => 1) (ht : s.transMat = fun _ _ => 1) :
    IMMFilter.priorProbs s = fun _ => 1 := by
  funext i
  simp [IMMFilter.priorProbs, hp, ht]

theorem imm1_mixingProb (s : IMMFilter α xdim 1 σ)
    (hp : s.probs = fun _ => 1) (ht : s.transMat = fun _ _ => 1) :
    IMMFilter.mixingProb s = fun _ _ => 1 := by
  funext i j
  simp [IMMFilter.mixingProb, hp, ht, imm1_priorProbs s hp ht]

theorem imm1_mixedState (ops : ModelOps α U xdim zdim σ)
    (s : IMMFilter α xdim 1 σ) (m : σ) (hm : s.models = fun _ => m)
    (hmix : IMMFilter.mixingProb s = fun _ _ => 1) :
    IMMFilter.mixedState ops s = fun _ => ops.st m := by
  funext i
  simp [IMMFilter.mixedState, hmix, hm]

theorem imm1_mixedCov (ops : ModelOps α U xdim zdim σ)
    (s : IMMFilter α xdim 1 σ) (m : σ) (hm : s.models = fun _ => m)
    (hmix : IMMFilter.mixingProb s = fun _ _ => 1)
    (hsym : (ops.cv m).transpose = ops.cv m) :
    IMMFilter.mixedCov ops s = fun _ => ops.cv m := by
  funext i
  simp [IMMFilter.mixedCov, hmix, imm1_mixedState ops s m hm hmix, hm,
    sub_self, vecMulVec_zero_left, symmetrize_eq_self hsym]

theorem imm1_models_predict (ops : ModelOps α U xdim zdim σ)
    (s : IMMFilter α xdim 1 σ) (m : σ) (u : U) (hm : s.models = fun _ => m)
    (hmix : IMMFilter.mixingProb s = fun _ _ => 1)
    (hsym : (ops.cv m).transpose = ops.cv m)
    (hreset : ops.resetOp (ops.st m) (ops.cv m) m = m) :
    (fun i => ops.predictOp u
      (ops.resetOp (IMMFilter.mixedState ops s i) (IMMFilter.mixedCov ops s i)
        (s.models i))) = fun _ : Fin 1 => ops.predictOp u m := by
  funext i
  rw [imm1_mixedState ops s m hm hmix, imm1_mixedCov ops s m hm hmix hsym, hm]
  exact congrArg (ops.predictOp u) hreset

/-- With a single model, unit probability and constant transition matrix
`[[c]]`, `c ≠ 0`, the fused prediction state of the combiner is the
model's predicted state scaled by `c`. -/
theorem imm1c_predictCore_state (ops : ModelOps α U xdim zdim σ)
    (s : IMMFilter α xdim 1 σ) (m : σ) (u : U) (c : α)
    (hm : s.models = fun _ => m) (hp : s.probs = fun _ => 1)
    (htc : s.transMat = fun _ _ => c) (hc : c ≠ 0)
    (hsym : (ops.cv m).transpose = ops.cv m)
    (hreset : ops.resetOp (ops.st m) (ops.cv m) m = m) :
    (IMMFilter.predictCore ops s u).state = c • ops.st (ops.predictOp u m) := by
  have hpp : IMMFilter.priorProbs s = fun _ => c := by
    funext i
    simp [IMMFilter.priorProbs, hp, htc]
  have hmix : IMMFilter.mixingProb s = fun _ _ => 1 := by
    funext i j
    simp [IMMFilter.mixingProb, hp, htc, hpp, div_self hc]
  show (∑ i, IMMFilter.priorProbs s i • ops.st
      ((fun i => ops.predictOp u (ops.resetOp (IMMFilter.mixedState ops s i)
        (IMMFilter.mixedCov ops s i) (s.models i))) i)) = c • ops.st (ops.predictOp u m)
  rw [hpp, imm1_models_predict ops s m u hm hmix hsym hreset]
  simp

theorem imm1_predictCore_fields (ops : ModelOps α U xdim zdim σ)
    (s : IMMFilter α xdim 1 σ) (m : σ) (u : U)
    (hm : s.models = fun _ => m) (hp : s.probs = fun _ => 1)
    (ht : s.transMat = fun _ _ => 1)
    (hsym : (ops.cv m).transpose = ops.cv m)
    (hreset : ops.resetOp (ops.st m) (ops.cv m) m = m)
    (hpsym : (ops.cv (ops.predictOp u m)).transpose = ops.cv (ops.predictOp u m)) :
    (IMMFilter.predictCore ops s u).models = (fun _ => ops.predictOp u m) ∧
    (IMMFilter.predictCore ops s u).probs = (fun _ => 1) ∧
    (IMMFilter.predictCore ops s u).transMat = s.transMat ∧
    (IMMFilter.predictCore ops s u).state = ops.st (ops.predictOp u m) ∧
    (IMMFilter.predictCore ops s u).cov = ops.cv (ops.predictOp u m) ∧
    (IMMFilter.predictCore ops s u).inited = s.inited := by
  have hmodels1 := imm1_models_predict ops s m u hm (imm1_mixingProb s hp ht)
    hsym hreset
  refine ⟨hmodels1, ?_, rfl, ?_, ?_, rfl⟩
  · rw [immPredictCore_probs]
    exact imm1_priorProbs s hp ht
  · show (∑ i, IMMFilter.priorProbs s i • ops.st
        ((fun i => ops.predictOp u (ops.resetOp (IMMFilter.mixedState ops s i)
          (IMMFilter.mixedCov ops s i) (s.models i))) i)) = ops.st (ops.predictOp u m)
    rw [imm1_priorProbs s hp ht, hmodels1]
    simp
  · show symmetrize (∑ i, IMMFilter.priorProbs s i •
        (ops.cv ((fun i => ops.predictOp u (ops.resetOp (IMMFilter.mixedState ops s i)
            (IMMFilter.mixedCov ops s i) (s.models i))) i) +
          Matrix.vecMulVec _ _)) = ops.cv (ops.predictOp u m)
    rw [imm1_priorProbs s hp ht, hmodels1]
    simp [sub_self, vecMulVec_zero_left, symmetrize_eq_self hpsym]

theorem imm1_postProbs (ops : ModelOps α U xdim zdim σ)
    (s : IMMFilter α xdim 1 σ) (m : σ) (z : Vec zdim α)
    (hm : s.models = fun _ => m) (hp : s.probs = fun _ => 1)
    (hlike : ops.likeOp z m ≠ 0) :
    IMMFilter.postProbs ops s z = fun _ => 1 := by
  funext i
  simp [IMMFilter.postProbs, hm, hp, div_self hlike]

theorem imm1_correctCore_fields (ops : ModelOps α U xdim zdim σ)
    (s : IMMFilter α xdim 1 σ) (m : σ) (z : Vec zdim α)
    (hm : s.models = fun _ => m) (hp : s.probs = fun _ => 1)
    (hlike : ops.likeOp z m ≠ 0)
    (hcsym : (ops.cv (ops.correctOp z m)).transpose = ops.cv (ops.correctOp z m)) :
    (IMMFilter.correctCore ops s z).models = (fun _ => ops.correctOp z m) ∧
    (IMMFilter.correctCore ops s z).probs = (fun _ => 1) ∧
    (IMMFilter.correctCore ops s z).transMat = s.transMat ∧
    (IMMFilter.correctCore ops s z).state = ops.st (ops.correctOp z m) ∧
    (IMMFilter.correctCore ops s z).cov = ops.cv (ops.correctOp z m) ∧
    (IMMFilter.correctCore ops s z).inited = s.inited := by
  have hmodels1 : (fun i => ops.correctOp z (s.models i)) =
      fun _ : Fin 1 => ops.correctOp z m := by
    funext i
    rw [hm]
  refine ⟨hmodels1, ?_, rfl, ?_, ?_, rfl⟩
  · rw [immCorrectCore_probs]
    exact imm1_postProbs ops s m z hm hp hlike
  · show (∑ i, IMMFilter.postProbs ops s z i •
        ops.st ((fun i => ops.correctOp z (s.models i)) i)) = ops.st (ops.correctOp z m)
    rw [imm1_postProbs ops s m z hm hp hlike, hmodels1]
    simp
  · show symmetrize (∑ i, IMMFilter.postProbs ops s z i •
        (ops.cv ((fun i => ops.correctOp z (s.models i)) i) +
          Matrix.vecMulVec _ _)) = ops.cv (ops.correctOp z m)
    rw [imm1_postProbs ops s m z hm hp hlike, hmodels1]
    simp [sub_self, vecMulVec_zero_left, symmetrize_eq_self hcsym]

end IMMLemmas

theorem foldl_triple {β γ₁ γ₂ γ₃ : Type} [AddCommMonoid γ₁] [AddCommMonoid γ₂]
    [AddCommMonoid γ₃] (g₁ : β → γ₁) (g₂ : β → γ₂) (g₃ : β → γ₃) :
    ∀ (l : List β) (a : γ₁) (b : γ₂) (c : γ₃),
      l.foldl (fun acc x => (acc.1 + g₁ x, acc.2.1 + g₂ x, acc.2.2 + g₃ x))
        (a, b, c) =
      (a + (l.map g₁).sum, b + (l.map g₂).sum, c + (l.map g₃).sum)
  | [], a, b, c => by simp
  | x :: l, a, b, c => by
    simp only [List.foldl_cons, List.map_cons, List.sum_cons]
    rw [foldl_triple g₁ g₂ g₃ l]
    simp [add_assoc]

theorem caIndex_injective (a : ℕ) : Function.Injective (caIndex a) := by
  intro j j' h
  have hv : 3 * (j.val / 2) + j.val % 2 = 3 * (j'.val / 2) + j'.val % 2 :=
    congrArg Fin.val h
  have hj := j.isLt
  have hj' := j'.isLt
  exact Fin.ext (by omega)

theorem caToCvMat_mul_cvToCaMat (α : Type) [Field α] (a : ℕ) :
    caToCvMat α a * cvToCaMat α a = 1 := by
  ext j j'
  rw [Matrix.mul_apply, Matrix.one_apply]
  simp only [caToCvMat, cvToCaMat, ite_mul, one_mul, zero_mul]
  rw [Finset.sum_ite_eq' Finset.univ (caIndex a j)
    (fun i => if i = caIndex a j' then (1 : α) else 0)]
  by_cases h : j = j'
  · simp [h]
  · rw [if_neg h]
    simp only [Finset.mem_univ, if_true]
    rw [if_neg ((caIndex_injective a).ne h)]

/-! The claim theorems. -/

/-- Claim C4: calling `correct(z)` is claimed to increment the step counter
reported by `len(filter)` by exactly one.  The code never touches the
counter: `EKFilterAN.correct` leaves `_len` unchanged for every filter
and every measurement, and on the concrete initialized scalar filter
`ekfA` the counter reported after a correct is still `0`, not `1`. -/
theorem claim_C4_step_counter (α U : Type) [LinearOrderedField α]
    (xd zd wd vd : ℕ) (k : EKFilterAN α U xd zd wd vd) (z : Vec zd α)
    (Mkw : Option (Matrix (Fin zd) (Fin vd) α))
    (Rkw : Option (Matrix (Fin vd) (Fin vd) α)) :
    (k.correctCore z Mkw Rkw).len = k.len ∧
    ((ekfA ℝ).correctCore (fun _ => 12 / 10) none none).len = 0 ∧
    (ekfA ℝ).len = 0 :=
  ⟨rfl, rfl, rfl⟩

/-- Claim C5, counterexample: the claim says the stored matrices after an
override call equal their values before the call.  On the initialized
scalar filter `ekfA` (whose stored `Q` is `[[1]]`), a `predict` with the
per-call override `Q = [[2]]` leaves the stored `Q` equal to `[[2]]`,
not `[[1]]`. -/
theorem claim_C5_counterexample :
    ((ekfA ℝ).predictCore () none (some fun _ _ => 2)).Q 0 0 = 2 ∧
    (ekfA ℝ).Q 0 0 = 1 ∧
    ((ekfA ℝ).predictCore () none (some fun _ _ => 2)).Q ≠ (ekfA ℝ).Q := by
  refine ⟨rfl, rfl, fun hEq => ?_⟩
  have h := congrFun (congrFun hEq 0) 0
  rw [show ((ekfA ℝ).predictCore () none (some fun _ _ => 2)).Q 0 0 = 2 from rfl,
    show (ekfA ℝ).Q 0 0 = 1 from rfl] at h
  norm_num at h

/-- Claim C5, amended: per-call matrix overrides are persisted, not transient:
after a `predict` with overrides `L`/`Q` the stored matrices equal the
override values, after a `correct` with overrides `M`/`R` likewise, and a
subsequent call without overrides behaves exactly as if the currently
stored (that is, the overridden) matrices were passed. -/
theorem claim_C5_overrides_persist (α U : Type) [LinearOrderedField α]
    (xd zd wd vd : ℕ) (k : EKFilterAN α U xd zd wd vd) (u : U) (z : Vec zd α)
    (Lm : Matrix (Fin xd) (Fin wd) α) (Qm : Matrix (Fin wd) (Fin wd) α)
    (Mm : Matrix (Fin zd) (Fin vd) α) (Rm : Matrix (Fin vd) (Fin vd) α) :
    ((k.predictCore u (some Lm) (some Qm)).L = Lm ∧
      (k.predictCore u (some Lm) (some Qm)).Q = Qm) ∧
    ((k.correctCore z (some Mm) (some Rm)).M = Mm ∧
      (k.correctCore z (some Mm) (some Rm)).R = Rm) ∧
    (∀ (g : EKFilterAN α U xd zd wd vd) (v : U),
      g.predictCore v none none = g.predictCore v (some g.L) (some g.Q)) ∧
    (∀ (g : EKFilterAN α U xd zd wd vd) (w : Vec zd α),
      g.correctCore w none none = g.correctCore w (some g.M) (some g.R)) :=
  ⟨⟨rfl, rfl⟩, ⟨rfl, rfl⟩, fun _ _ => rfl, fun _ _ => rfl⟩

/-- Claim C6: after every state updating operation (`predict`, `correct`,
`correct_JPDA` on the EKF; `predict`, `correct` on the IMM combiner) the
stored covariance matrix equals its own transpose: every one of these
operations ends by assigning a symmetrized matrix. -/
theorem claim_C6_cov_symmetric (α U : Type) [LinearOrderedField α]
    (xd zd wd vd n : ℕ) (σ : Type) :
    (∀ (k : EKFilterAN α U xd zd wd vd) (u : U)
        (Lkw : Option (Matrix (Fin xd) (Fin wd) α))
        (Qkw : Option (Matrix (Fin wd) (Fin wd) α)),
      ((k.predictCore u Lkw Qkw).cov).transpose = (k.predictCore u Lkw Qkw).cov) ∧
    (∀ (k : EKFilterAN α U xd zd wd vd) (z : Vec zd α)
        (Mkw : Option (Matrix (Fin zd) (Fin vd) α))
        (Rkw : Option (Matrix (Fin vd) (Fin vd) α)),
      ((k.correctCore z Mkw Rkw).cov).transpose = (k.correctCore z Mkw Rkw).cov) ∧
    (∀ (k : EKFilterAN α U xd zd wd vd) (zs : List (Vec zd α)) (probs : List α),
      ((k.correctJPDACore zs probs).cov).transpose = (k.correctJPDACore zs probs).cov) ∧
    (∀ (ops : ModelOps α U xd zd σ) (s : IMMFilter α xd n σ) (u : U),
      ((IMMFilter.predictCore ops s u).cov).transpose = (IMMFilter.predictCore ops s u).cov) ∧
    (∀ (ops : ModelOps α U xd zd σ) (s : IMMFilter α xd n σ) (z : Vec zd α),
      ((IMMFilter.correctCore ops s z).cov).transpose = (IMMFilter.correctCore ops s z).cov) :=
  ⟨fun k u Lkw Qkw => predictCore_cov_transpose k u Lkw Qkw,
   fun k z Mkw Rkw => correctCore_cov_transpose k z Mkw Rkw,
   fun k zs probs => correctJPDACore_cov_transpose k zs probs,
   fun ops s u => immPredictCore_cov_transpose ops s u,
   fun ops s z => immCorrectCore_cov_transpose ops s z⟩

/-- Claim C7, counterexample: the claim says `reset` on a never-initialized
filter fails with a `NotInitialized` condition and leaves the filter
unchanged.  The source performs no initialization check: on the
uninitialized scalar filter `trivEKF` (with state `[0]`), `reset([5],
[[1]])` succeeds and changes the stored state to `[5]`. -/
theorem claim_C7_counterexample :
    (trivEKF ℝ).inited = false ∧
    ((trivEKF ℝ).reset (fun _ => 5) (fun _ _ => 1)).state 0 = 5 ∧
    (trivEKF ℝ).state 0 = 0 ∧
    ((trivEKF ℝ).reset (fun _ => 5) (fun _ _ => 1)).state ≠ (trivEKF ℝ).state := by
  refine ⟨rfl, rfl, rfl, fun hEq => ?_⟩
  have h := congrFun hEq 0
  rw [show ((trivEKF ℝ).reset (fun _ => 5) (fun _ _ => 1)).state 0 = 5 from rfl,
    show (trivEKF ℝ).state 0 = 0 from rfl] at h
  norm_num at h

/-- Claim C7, amended: `reset` performs no initialization check: on every
filter, initialized or not, it overwrites the state and the covariance
and never modifies the initialized flag or the step counter. -/
theorem claim_C7_reset (α U : Type) [LinearOrderedField α]
    (xd zd wd vd : ℕ) (k : EKFilterAN α U xd zd wd vd) (x : Vec xd α)
    (P : Matrix (Fin xd) (Fin xd) α) :
    (k.reset x P).state = x ∧ (k.reset x P).cov = P ∧
    (k.reset x P).inited = k.inited ∧ (k.reset x P).len = k.len :=
  ⟨rfl, rfl, rfl, rfl⟩

/-- Claim C2, counterexample: the claim asserts normalization for every IMM
combiner with a row stochastic transition matrix.  The concrete
initialized two model combiner `immRow2` has the row stochastic
transition matrix `[[1, 0], [1, 0]]` and the normalized non-negative
probability vector `[1/4, 3/4]`, yet after one `predict` the model
probabilities sum to `1/2`, not `1`: the predict recursion
`μ_i ← Σ_j Π_ij μ_j` preserves normalization only for column stochastic
`Π`. -/
theorem claim_C2_counterexample :
    ((immRow2 ℝ).transMat 0 0 + (immRow2 ℝ).transMat 0 1 = 1) ∧
    ((immRow2 ℝ).transMat 1 0 + (immRow2 ℝ).transMat 1 1 = 1) ∧
    (0 ≤ (immRow2 ℝ).transMat 0 0) ∧ (0 ≤ (immRow2 ℝ).transMat 0 1) ∧
    (0 ≤ (immRow2 ℝ).transMat 1 0) ∧ (0 ≤ (immRow2 ℝ).transMat 1 1) ∧
    (0 ≤ (immRow2 ℝ).probs 0) ∧ (0 ≤ (immRow2 ℝ).probs 1) ∧
    ((immRow2 ℝ).probs 0 + (immRow2 ℝ).probs 1 = 1) ∧
    ((immRow2 ℝ).inited = true) ∧
    ((IMMFilter.predictCore (ekfOps ℝ Unit 1 1 1 1 Real.sqrt Real.exp Real.pi)
        (immRow2 ℝ) ()).probs 0 +
      (IMMFilter.predictCore (ekfOps ℝ Unit 1 1 1 1 Real.sqrt Real.exp Real.pi)
        (immRow2 ℝ) ()).probs 1 = 1 / 2) ∧
    ((1 : ℝ) / 2 ≠ 1) := by
  refine ⟨?_, ?_, ?_, ?_, ?_, ?_, ?_, ?_, ?_, rfl, ?_, by norm_num⟩ <;>
    norm_num [immRow2, immPredictCore_probs, IMMFilter.priorProbs,
      Fin.sum_univ_two]

/-- Claim C2, amended: for an IMM combiner over EKF models whose model
probability vector is non-negative and sums to one and whose transition
matrix has non-negative entries and columns summing to one (column
stochastic, rather than row stochastic as claimed), the model
probabilities after every `predict` and after every `correct` remain
non-negative and sum exactly to one (the exact-arithmetic form of the
`± 1e-9` tolerance). -/
theorem claim_C2_probs_normalization (U : Type) (xd zd wd vd n : ℕ)
    (s : IMMFilter ℝ xd n (EKFilterAN ℝ U xd zd wd vd)) (u : U) (z : Vec zd ℝ)
    (hnn : ∀ i, 0 ≤ s.probs i) (hsum : (∑ i, s.probs i) = 1)
    (htnn : ∀ i j, 0 ≤ s.transMat i j)
    (hcol : ∀ j, (∑ i, s.transMat i j) = 1) :
    (∀ i, 0 ≤ (IMMFilter.predictCore
      (ekfOps ℝ U xd zd wd vd Real.sqrt Real.exp Real.pi) s u).probs i) ∧
    ((∑ i, (IMMFilter.predictCore
      (ekfOps ℝ U xd zd wd vd Real.sqrt Real.exp Real.pi) s u).probs i) = 1) ∧
    (∀ i, 0 ≤ (IMMFilter.correctCore
      (ekfOps ℝ U xd zd wd vd Real.sqrt Real.exp Real.pi) s z).probs i) ∧
    ((∑ i, (IMMFilter.correctCore
      (ekfOps ℝ U xd zd wd vd Real.sqrt Real.exp Real.pi) s z).probs i) = 1) := by
  have hT : 0 < ∑ j, s.probs j *
      (ekfOps ℝ U xd zd wd vd Real.sqrt Real.exp Real.pi).likeOp z (s.models j) := by
    obtain ⟨i0, hi0⟩ : ∃ i, 0 < s.probs i := by
      by_contra hno
      push_neg at hno
      rw [Finset.sum_eq_zero fun i _ => le_antisymm (hno i) (hnn i)] at hsum
      norm_num at hsum
    refine Finset.sum_pos'
      (fun i _ => mul_nonneg (hnn i)
        (ekfOps_likeOp_pos Real.sqrt Real.exp Real.pi z (s.models i)).le)
      ⟨i0, Finset.mem_univ i0,
        mul_pos hi0 (ekfOps_likeOp_pos Real.sqrt Real.exp Real.pi z (s.models i0))⟩
  refine ⟨?_, ?_, ?_, ?_⟩
  · intro i
    rw [immPredictCore_probs]
    exact Finset.sum_nonneg fun j _ => mul_nonneg (htnn i j) (hnn j)
  · simp only [immPredictCore_probs, IMMFilter.priorProbs]
    rw [Finset.sum_comm]
    calc (∑ j, ∑ i, s.transMat i j * s.probs j)
        = ∑ j, (∑ i, s.transMat i j) * s.probs j :=
          Finset.sum_congr rfl fun j _ => by rw [Finset.sum_mul]
      _ = ∑ j, s.probs j := Finset.sum_congr rfl fun j _ => by rw [hcol j, one_mul]
      _ = 1 := hsum
  · intro i
    rw [immCorrectCore_probs]
    exact div_nonneg (mul_nonneg (hnn i)
      (ekfOps_likeOp_pos Real.sqrt Real.exp Real.pi z (s.models i)).le) hT.le
  · simp only [immCorrectCore_probs, IMMFilter.postProbs]
    rw [← Finset.sum_div, div_self (ne_of_gt hT)]

/-- Claim C2, witness: the concrete two model combiner `immCol2` with the
column stochastic transition matrix `[[1/2, 1/2], [1/2, 1/2]]` and
uniform probabilities keeps its model probabilities summing to one after
a `predict` and after a `correct`. -/
theorem claim_C2_probs_normalization_witness :
    ((∑ i, (immCol2 ℝ).probs i) = 1) ∧
    ((∑ i, (IMMFilter.predictCore
      (ekfOps ℝ Unit 1 1 1 1 Real.sqrt Real.exp Real.pi) (immCol2 ℝ) ()).probs i) = 1) ∧
    ((∑ i, (IMMFilter.correctCore
      (ekfOps ℝ Unit 1 1 1 1 Real.sqrt Real.exp Real.pi) (immCol2 ℝ)
      (fun _ => 1)).probs i) = 1) := by
  have h := claim_C2_probs_normalization Unit 1 1 1 1 2 (immCol2 ℝ) () (fun _ => 1)
    (fun i => by norm_num [immCol2])
    (by norm_num [immCol2, Fin.sum_univ_two])
    (fun i j => by norm_num [immCol2])
    (fun j => by norm_num [immCol2, Fin.sum_univ_two])
  exact ⟨by norm_num [immCol2, Fin.sum_univ_two], h.2.1, h.2.2.2⟩

/-- Claim C3: on an initialized additive noise EKF with `it = 0` and
`order = 1`, `correct_JPDA` computes exactly the probability weighted
posterior stated by the specification, `jpdaSpecUpdate`: the state is
the prior plus the weighted mean increment and the covariance is the
no-detection weighted prior plus the weighted per-candidate posteriors
plus the spread term, symmetrized. -/
theorem claim_C3_jpda_formula (U : Type) (xd zd wd vd : ℕ)
    (k : EKFilterAN ℝ U xd zd wd vd) (zs : List (Vec zd ℝ)) (probs : List ℝ)
    (hinit : k.inited = true) (hit : k.it = 0) (horder : k.order2 = false)
    (hlen : zs.length = probs.length) :
    k.correct_JPDA zs probs = Except.ok (k.correctJPDACore zs probs) ∧
    (k.correctJPDACore zs probs).state = (jpdaSpecUpdate k zs probs).1 ∧
    (k.correctJPDACore zs probs).cov = (jpdaSpecUpdate k zs probs).2 := by
  refine ⟨by simp [EKFilterAN.correct_JPDA, hinit], ?_, ?_⟩ <;>
  · simp only [EKFilterAN.correctJPDACore, EKFilterAN.jpdaCombine, jpdaSpecUpdate,
      hit, horder, Function.iterate_zero, id_eq, Bool.false_eq_true, if_false]
    rw [foldl_triple]
    simp

/-- Claim C3, witness: the concrete initialized scalar filter `ekfA` has
`it = 0`, `order = 1`, and on the two candidate list `[[2]], [[0]]` with
probabilities `[2/5, 2/5]` its `correct_JPDA` state matches the
specification formula. -/
theorem claim_C3_jpda_formula_witness :
    (ekfA ℝ).inited = true ∧ (ekfA ℝ).it = 0 ∧ (ekfA ℝ).order2 = false ∧
    ((ekfA ℝ).correctJPDACore [fun _ => 2, fun _ => 0] [2 / 5, 2 / 5]).state =
      (jpdaSpecUpdate (ekfA ℝ) [fun _ => 2, fun _ => 0] [2 / 5, 2 / 5]).1 :=
  ⟨rfl, rfl, rfl,
    (claim_C3_jpda_formula Unit 1 1 1 1 (ekfA ℝ) [fun _ => 2, fun _ => 0]
      [2 / 5, 2 / 5] rfl rfl rfl rfl).2.1⟩

/-- Claim C8: on an initialized filter the likelihood wrapper succeeds and the
returned Gaussian density of the innovation is floored at
`np.finfo(float).tiny = 2 ^ (-1022)`, hence strictly positive and never
exactly zero, however large the innovation; the IMM combiner likelihood,
a probability weighted sum of model likelihoods, inherits the same lower
bound whenever its model probabilities are non-negative and sum to
one. -/
theorem claim_C8_likelihood_floor (U : Type) (xd zd wd vd : ℕ)
    (k : EKFilterAN ℝ U xd zd wd vd) (z : Vec zd ℝ)
    (Mkw : Option (Matrix (Fin zd) (Fin vd) ℝ))
    (Rkw : Option (Matrix (Fin vd) (Fin vd) ℝ))
    (hinit : k.inited = true) :
    EKFilterAN.likelihood Real.sqrt Real.exp Real.pi k z Mkw Rkw =
      Except.ok (EKFilterAN.likelihoodRun Real.sqrt Real.exp Real.pi k z Mkw Rkw) ∧
    tinyFloat ℝ ≤ (EKFilterAN.likelihoodRun Real.sqrt Real.exp Real.pi k z Mkw Rkw).1 ∧
    0 < (EKFilterAN.likelihoodRun Real.sqrt Real.exp Real.pi k z Mkw Rkw).1 ∧
    ∀ (n : ℕ) (s : IMMFilter ℝ xd n (EKFilterAN ℝ U xd zd wd vd)) (z2 : Vec zd ℝ),
      (∀ i, 0 ≤ s.probs i) → (∑ i, s.probs i) = 1 →
      tinyFloat ℝ ≤ IMMFilter.likelihoodCore
        (ekfOps ℝ U xd zd wd vd Real.sqrt Real.exp Real.pi) s z2 := by
  refine ⟨by simp [EKFilterAN.likelihood, hinit], le_max_right _ _,
    lt_of_lt_of_le tinyFloat_pos (le_max_right _ _), ?_⟩
  intro n s z2 h1 h2
  have hstep : ∀ i : Fin n, s.probs i * tinyFloat ℝ ≤
      s.probs i * (ekfOps ℝ U xd zd wd vd Real.sqrt Real.exp Real.pi).likeOp z2 (s.models i) :=
    fun i => mul_le_mul_of_nonneg_left (ekfOps_likeOp_tiny_le _ _ _ _ _) (h1 i)
  calc tinyFloat ℝ = (∑ i, s.probs i) * tinyFloat ℝ := by rw [h2, one_mul]
    _ = ∑ i, s.probs i * tinyFloat ℝ := by rw [Finset.sum_mul]
    _ ≤ ∑ i, s.probs i *
        (ekfOps ℝ U xd zd wd vd Real.sqrt Real.exp Real.pi).likeOp z2 (s.models i) :=
      Finset.sum_le_sum fun i _ => hstep i
    _ = IMMFilter.likelihoodCore
        (ekfOps ℝ U xd zd wd vd Real.sqrt Real.exp Real.pi) s z2 := rfl

/-- Claim C8, witness: the concrete initialized scalar filter `ekfA` at
measurement `[3]` receives a likelihood at least `2 ^ (-1022)`, hence
strictly positive. -/
theorem claim_C8_likelihood_floor_witness :
    (ekfA ℝ).inited = true ∧
    0 < (EKFilterAN.likelihoodRun Real.sqrt Real.exp Real.pi (ekfA ℝ)
      (fun _ => 3) none none).1 :=
  ⟨rfl, (claim_C8_likelihood_floor Unit 1 1 1 1 (ekfA ℝ) (fun _ => 3)
    none none rfl).2.2.1⟩

/-- Claim C10: `distance` and `likelihood` are pure queries: on an initialized
filter, with or without per-call `M`/`R` overrides, both succeed and
return the filter record completely unchanged (state, covariance, stored
matrices and flags included). -/
theorem claim_C10_pure_queries (U : Type) (xd zd wd vd : ℕ)
    (k : EKFilterAN ℝ U xd zd wd vd) (z : Vec zd ℝ)
    (Mkw : Option (Matrix (Fin zd) (Fin vd) ℝ))
    (Rkw : Option (Matrix (Fin vd) (Fin vd) ℝ))
    (hinit : k.inited = true) :
    (EKFilterAN.distanceRun Real.log k z Mkw Rkw).2 = k ∧
    (EKFilterAN.likelihoodRun Real.sqrt Real.exp Real.pi k z Mkw Rkw).2 = k ∧
    EKFilterAN.distance Real.log k z Mkw Rkw =
      Except.ok (EKFilterAN.distanceRun Real.log k z Mkw Rkw) ∧
    EKFilterAN.likelihood Real.sqrt Real.exp Real.pi k z Mkw Rkw =
      Except.ok (EKFilterAN.likelihoodRun Real.sqrt Real.exp Real.pi k z Mkw Rkw) :=
  ⟨rfl, rfl, by simp [EKFilterAN.distance, hinit],
    by simp [EKFilterAN.likelihood, hinit]⟩

/-- Claim C10, witness: on the concrete initialized scalar filter `ekfA` with a
per-call `R` override, `distance` returns the filter unchanged. -/
theorem claim_C10_pure_queries_witness :
    (ekfA ℝ).inited = true ∧
    (EKFilterAN.distanceRun Real.log (ekfA ℝ) (fun _ => 3) none
      (some fun _ _ => 2)).2 = ekfA ℝ :=
  ⟨rfl, (claim_C10_pure_queries Unit 1 1 1 1 (ekfA ℝ) (fun _ => 3) none
    (some fun _ _ => 2) rfl).1⟩

/-- Invariant of the single model combiner with transition matrix `[[1]]`:
along any sequence of lifecycle calls it carries exactly its model's state
and covariance, with model probability one throughout. -/
theorem imm1_run {α U : Type} [LinearOrderedField α] {xd zd wd vd : ℕ}
    (sqrt exp : α → α) (pi : α) :
    ∀ (l : List (FilterOp α U zd))
      (s : IMMFilter α xd 1 (EKFilterAN α U xd zd wd vd))
      (g : EKFilterAN α U xd zd wd vd),
      s.models = (fun _ => g) → s.probs = (fun _ => 1) →
      s.transMat = (fun _ _ => 1) → s.state = g.state → s.cov = g.cov →
      g.cov.transpose = g.cov →
      (runIMM (ekfOps α U xd zd wd vd sqrt exp pi) s l).state = (runEKF g l).state ∧
      (runIMM (ekfOps α U xd zd wd vd sqrt exp pi) s l).cov = (runEKF g l).cov := by
  intro l
  induction l with
  | nil =>
    intro s g _ _ _ h4 h5 _
    exact ⟨h4, h5⟩
  | cons op rest ih =>
    intro s g h1 h2 h3 h4 h5 h6
    cases op with
    | predictStep u =>
      have hf := imm1_predictCore_fields (ekfOps α U xd zd wd vd sqrt exp pi)
        s g u h1 h2 h3 h6 (reset_self g) (predictCore_cov_transpose g u none none)
      simp only [runIMM, runEKF]
      exact ih (IMMFilter.predictCore (ekfOps α U xd zd wd vd sqrt exp pi) s u)
        (g.predictCore u none none) hf.1 hf.2.1 (hf.2.2.1.trans h3)
        hf.2.2.2.1 hf.2.2.2.2.1 (predictCore_cov_transpose g u none none)
    | correctStep z =>
      have hf := imm1_correctCore_fields (ekfOps α U xd zd wd vd sqrt exp pi)
        s g z h1 h2 (ekfOps_likeOp_pos sqrt exp pi z g).ne'
        (correctCore_cov_transpose g z none none)
      simp only [runIMM, runEKF]
      exact ih (IMMFilter.correctCore (ekfOps α U xd zd wd vd sqrt exp pi) s z)
        (g.correctCore z none none) hf.1 hf.2.1 (hf.2.2.1.trans h3)
        hf.2.2.2.1 hf.2.2.2.2.1 (correctCore_cov_transpose g z none none)

/-- Claim C1, counterexample: the claim demands trajectory equality for the
default transition matrix.  With one registered model, default model
probabilities `[1]` and the default transition matrix `[[0.999]]`, after
`init([1], [[1]])` a single `predict` leaves the combiner state at
`0.999` while the underlying scalar filter (identity dynamics, zero
process noise effect on the state) predicts state `1`: the combiner
scales its fused output by the unnormalized prior probability `0.999`. -/
theorem claim_C1_counterexample :
    ((IMMFilter.predictCore (ekfOps ℝ Unit 1 1 1 1 Real.sqrt Real.exp Real.pi)
      (IMMFilter.init (ekfOps ℝ Unit 1 1 1 1 Real.sqrt Real.exp Real.pi)
        (immDefault1 ℝ) (fun _ => 1) (fun _ _ => 1)) ()).state 0 = 999 / 1000) ∧
    ((((trivEKF ℝ).init (fun _ => 1) (fun _ _ => 1)).predictCore () none none).state 0 = 1) ∧
    ((999 / 1000 : ℝ) ≠ 1) := by
  refine ⟨?_, rfl, by norm_num⟩
  have hstep := imm1c_predictCore_state
    (ekfOps ℝ Unit 1 1 1 1 Real.sqrt Real.exp Real.pi)
    (IMMFilter.init (ekfOps ℝ Unit 1 1 1 1 Real.sqrt Real.exp Real.pi)
      (immDefault1 ℝ) (fun _ => 1) (fun _ _ => 1))
    ((trivEKF ℝ).init (fun _ => 1) (fun _ _ => 1)) () (999 / 1000)
    rfl
    (by funext i; simp [IMMFilter.init, immDefault1, IMMFilter.defaultProbs])
    (by funext i j
        fin_cases i
        fin_cases j
        simp [IMMFilter.init, immDefault1, IMMFilter.defaultTransMat])
    (by norm_num)
    rfl
    (reset_self _)
  rw [hstep]
  show (999 / 1000 : ℝ) * 1 = 999 / 1000
  norm_num

/-- Claim C1, amended: an IMM combiner with exactly one registered model, the
default model probabilities and the transition matrix `[[1]]` (instead of
the default `[[0.999]]`, which scales the fused prediction as shown in the
counterexample), after `init` with the model's state and a symmetric
covariance, produces on every sequence of predict/correct calls exactly
the state and covariance trajectories of the underlying filter used
directly. -/
theorem claim_C1_single_model_reduction (U : Type) (xd zd wd vd : ℕ)
    (k : EKFilterAN ℝ U xd zd wd vd) (x : Vec xd ℝ)
    (P : Matrix (Fin xd) (Fin xd) ℝ) (hP : P.transpose = P)
    (s : IMMFilter ℝ xd 1 (EKFilterAN ℝ U xd zd wd vd))
    (hm : s.models = fun _ => k)
    (hp : s.probs = IMMFilter.defaultProbs ℝ 1)
    (ht : s.transMat = fun _ _ => 1)
    (l : List (FilterOp ℝ U zd)) :
    (runIMM (ekfOps ℝ U xd zd wd vd Real.sqrt Real.exp Real.pi)
        (IMMFilter.init (ekfOps ℝ U xd zd wd vd Real.sqrt Real.exp Real.pi) s x P)
        l).state =
      (runEKF (k.init x P) l).state ∧
    (runIMM (ekfOps ℝ U xd zd wd vd Real.sqrt Real.exp Real.pi)
        (IMMFilter.init (ekfOps ℝ U xd zd wd vd Real.sqrt Real.exp Real.pi) s x P)
        l).cov =
      (runEKF (k.init x P) l).cov := by
  apply imm1_run Real.sqrt Real.exp Real.pi l
  · show (fun i => (ekfOps ℝ U xd zd wd vd Real.sqrt Real.exp Real.pi).initOp x P
      (s.models i)) = fun _ => k.init x P
    funext i
    rw [hm]
    rfl
  · show s.probs = fun _ => 1
    rw [hp]
    funext i
    simp [IMMFilter.defaultProbs]
  · exact ht
  · rfl
  · rfl
  · exact hP

/-- Claim C1, witness: the concrete single model combiner over the scalar filter
`trivEKF` with transition matrix `[[1]]`, initialized at `([1], [[1]])`,
follows the direct filter exactly over a predict and a correct. -/
theorem claim_C1_single_model_reduction_witness :
    (Matrix.transpose ((fun _ _ => (1 : ℝ)) : Matrix (Fin 1) (Fin 1) ℝ) = fun _ _ => 1) ∧
    (runIMM (ekfOps ℝ Unit 1 1 1 1 Real.sqrt Real.exp Real.pi)
        (IMMFilter.init (ekfOps ℝ Unit 1 1 1 1 Real.sqrt Real.exp Real.pi)
          { immDefault1 ℝ with transMat := fun _ _ => 1 } (fun _ => 1) (fun _ _ => 1))
        [FilterOp.predictStep (), FilterOp.correctStep (fun _ => 2)]).state =
      (runEKF ((trivEKF ℝ).init (fun _ => 1) (fun _ _ => 1))
        [FilterOp.predictStep (), FilterOp.correctStep (fun _ => 2)]).state :=
  ⟨rfl, (claim_C1_single_model_reduction Unit 1 1 1 1 (trivEKF ℝ) (fun _ => 1)
    (fun _ _ => 1) rfl { immDefault1 ℝ with transMat := fun _ _ => 1 } rfl rfl rfl
    [FilterOp.predictStep (), FilterOp.correctStep (fun _ => 2)]).1⟩

/-- Claim C9: switching a constant velocity state of length `2 * axis` to the
constant acceleration representation and back returns exactly the
original state: the row selection matrix of the `ca → cv` branch is a
left inverse of the column selection matrix of the `cv → ca` branch. -/
theorem claim_C9_state_switch_roundtrip (a : ℕ) (x : Vec (2 * a) ℝ) :
    stateSwitchCaToCv ℝ a (stateSwitchCvToCa ℝ a x) = x := by
  unfold stateSwitchCaToCv stateSwitchCvToCa
  rw [Matrix.mulVec_mulVec, caToCvMat_mul_cvToCaMat, Matrix.one_mulVec]

end Tracklib
